import Mathlib

/-!
Verification of the hexagonal grid generator (`src/main.py`).

The Python program is shallowly embedded:

* A Python `dict` built by insertion is an association list
  `List ((ℤ × ℤ) × HexTile)`; `dict.get` is `List.lookup`.
* `range(a, b)` over Python ints is `intRange a (b - 1)` below.
* The global random generator that `HexTile.__init__` draws from is made
  explicit as an oracle `attrs : ℤ → ℤ → TileAttrs` giving, for each
  coordinate, the values the four `random` calls produced.
* The external `pyproj` azimuthal-equidistant transform used by
  `simulate_tectonics` is an explicit collaborator parameter
  `proj : ℝ → ℝ → ℝ × ℝ` (lon lat ↦ planar x y).
* Python floats are idealised as real numbers.
-/

/-- Python `range(a, b + 1)` by fuel: `n` consecutive integers from `a`. -/
def intRangeAux : ℤ → ℕ → List ℤ
  | _, 0 => []
  | a, n + 1 => a :: intRangeAux (a + 1) n

/-- The list of integers `a, a+1, ..., b` (empty when `b < a`),
i.e. Python `range(a, b + 1)`. -/
def intRange (a b : ℤ) : List ℤ :=
  intRangeAux a (b + 1 - a).toNat

theorem length_intRangeAux (a : ℤ) (n : ℕ) : (intRangeAux a n).length = n := by
  induction n generalizing a with
  | zero => rfl
  | succ n ih => simp [intRangeAux, ih]

theorem mem_intRangeAux {x a : ℤ} {n : ℕ} :
    x ∈ intRangeAux a n ↔ a ≤ x ∧ x < a + n := by
  induction n generalizing a with
  | zero => simp [intRangeAux]
  | succ n ih =>
    simp only [intRangeAux, List.mem_cons, ih]
    push_cast
    omega

theorem nodup_intRangeAux (a : ℤ) (n : ℕ) : (intRangeAux a n).Nodup := by
  induction n generalizing a with
  | zero => simp [intRangeAux]
  | succ n ih =>
    simp [intRangeAux, ih]
    intro h
    have := mem_intRangeAux.mp h
    omega

theorem length_intRange (a b : ℤ) : (intRange a b).length = (b + 1 - a).toNat :=
  length_intRangeAux a _

theorem mem_intRange {x a b : ℤ} : x ∈ intRange a b ↔ a ≤ x ∧ x ≤ b := by
  rw [intRange, mem_intRangeAux]
  omega

theorem nodup_intRange (a b : ℤ) : (intRange a b).Nodup :=
  nodup_intRangeAux a _

/-- The per-tile state drawn from the random source when a tile is created
(`random.uniform(0, 100)`, `random.uniform(-30, 50)`, `random.choice(...)`,
`random.choice(...)` in `HexTile.__init__`). -/
structure TileAttrs where
  elevation : ℝ
  temperature : ℝ
  natural_resources : String
  agriculture : String

/-- A hex tile (`HexTile` in `src/main.py`): cube coordinates, with
`s = -q - r` computed at construction, plus the randomized attributes. -/
structure HexTile where
  q : ℤ
  r : ℤ
  s : ℤ
  elevation : ℝ
  temperature : ℝ
  natural_resources : String
  agriculture : String

/-- Model of `HexTile.__init__`: stores `q`, `r`, derives `s = -q - r`, and fills the
remaining fields from the random source `attrs`. -/
def mkTile (attrs : ℤ → ℤ → TileAttrs) (q r : ℤ) : HexTile :=
  { q := q
    r := r
    s := -q - r
    elevation := (attrs q r).elevation
    temperature := (attrs q r).temperature
    natural_resources := (attrs q r).natural_resources
    agriculture := (attrs q r).agriculture }

/-- One iteration of the outer `q` loop of `HexGrid.generate_grid`:
`for r in range(max(-radius, -q - radius), min(radius, -q + radius) + 1)`. -/
def gridRow (attrs : ℤ → ℤ → TileAttrs) (radius q : ℤ) :
    List ((ℤ × ℤ) × HexTile) :=
  (intRange (max (-radius) (-q - radius)) (min radius (-q + radius))).map
    (fun r => ((q, r), mkTile attrs q r))

/-- Model of `HexGrid.generate_grid`: the dict `{(q, r): HexTile(q, r)}` built by the
double loop `for q in range(-radius, radius + 1): for r in range(...)`. -/
def generate_grid (attrs : ℤ → ℤ → TileAttrs) (radius : ℤ) :
    List ((ℤ × ℤ) × HexTile) :=
  (intRange (-radius) radius).flatMap (gridRow attrs radius)

/-- The key set of the grid dict, in insertion order. -/
def gridKeys (g : List ((ℤ × ℤ) × HexTile)) : List (ℤ × ℤ) :=
  g.map Prod.fst

/-- Model of `HexGrid.get_tile`: `self.grid.get((q, r))`, `None` when absent. -/
def get_tile (g : List ((ℤ × ℤ) × HexTile)) (q r : ℤ) : Option HexTile :=
  List.lookup (q, r) g

/-- A fixed attribute oracle used for concrete test instances. -/
def attrs0 : ℤ → ℤ → TileAttrs :=
  fun _ _ =>
    { elevation := 0
      temperature := 0
      natural_resources := "None"
      agriculture := "None" }

theorem intRangeAux_eq_map (a : ℤ) (n : ℕ) :
    intRangeAux a n = (List.range n).map (fun i : ℕ => a + (i : ℤ)) := by
  induction n generalizing a with
  | zero => rfl
  | succ n ih =>
    rw [intRangeAux, ih, List.range_succ_eq_map, List.map_cons, List.map_map]
    refine congrArg₂ List.cons (by simp) (List.map_congr_left ?_)
    intro i _
    simp only [Function.comp_apply, Nat.succ_eq_add_one]
    push_cast
    ring

theorem list_sum_map_range (f : ℕ → ℕ) (n : ℕ) :
    ((List.range n).map f).sum = ∑ i ∈ Finset.range n, f i := by
  induction n with
  | zero => rfl
  | succ n ih => rw [List.range_succ, Finset.sum_range_succ, List.map_append, List.sum_append, ih]; simp

/-- Length of row `i` (numbering rows `q = -n + i`) of the radius-`n` grid. -/
def rowFun (n i : ℕ) : ℕ :=
  if i ≤ n then n + 1 + i else 3 * n + 1 - i

theorem hexSum (n : ℕ) :
    ∑ i ∈ Finset.range (2 * n + 1), rowFun n i = 3 * n ^ 2 + 3 * n + 1 := by
  induction n with
  | zero => decide
  | succ n ih =>
    have h1 : 2 * (n + 1) + 1 = (2 * n + 2) + 1 := by ring
    rw [h1, Finset.sum_range_succ']
    have h2 : ∀ k ∈ Finset.range (2 * n + 2), rowFun (n + 1) (k + 1) = rowFun n k + 2 := by
      intro k hk
      have hk2 := Finset.mem_range.mp hk
      simp only [rowFun]
      split_ifs <;> omega
    rw [Finset.sum_congr rfl h2, Finset.sum_add_distrib, Finset.sum_const, Finset.card_range,
      Finset.sum_range_succ, ih]
    have h3 : rowFun n (2 * n + 1) = n := by
      simp only [rowFun]
      split_ifs <;> omega
    have h4 : rowFun (n + 1) 0 = n + 2 := by
      simp only [rowFun]
      split_ifs <;> omega
    rw [h3, h4, smul_eq_mul]
    ring

theorem length_gridRow (attrs : ℤ → ℤ → TileAttrs) (radius q : ℤ) :
    (gridRow attrs radius q).length =
      (min radius (-q + radius) + 1 - max (-radius) (-q - radius)).toNat := by
  simp [gridRow, length_intRange]

theorem generate_grid_length_nat (attrs : ℤ → ℤ → TileAttrs) (n : ℕ) :
    (generate_grid attrs (n : ℤ)).length = 3 * n ^ 2 + 3 * n + 1 := by
  rw [generate_grid, List.length_flatMap]
  have h1 : intRange (-(n : ℤ)) (n : ℤ) = intRangeAux (-(n : ℤ)) (2 * n + 1) := by
    rw [intRange]
    congr 1
    omega
  rw [h1, intRangeAux_eq_map, List.map_map, list_sum_map_range]
  rw [Finset.sum_congr rfl (fun i hi => ?_) , hexSum]
  have hi2 := Finset.mem_range.mp hi
  simp only [Function.comp_apply, length_gridRow, rowFun]
  split_ifs <;> omega

theorem mem_gridKeys_generate {attrs : ℤ → ℤ → TileAttrs} {R q r : ℤ} :
    (q, r) ∈ gridKeys (generate_grid attrs R) ↔
      -R ≤ q ∧ q ≤ R ∧ max (-R) (-q - R) ≤ r ∧ r ≤ min R (-q + R) := by
  constructor
  · intro h
    rw [gridKeys, generate_grid, List.map_flatMap] at h
    obtain ⟨q', hq', hmem⟩ := List.mem_flatMap.mp h
    rw [gridRow, List.map_map] at hmem
    obtain ⟨r', hr', heq⟩ := List.mem_map.mp hmem
    simp only [Function.comp_apply, Prod.mk.injEq] at heq
    obtain ⟨rfl, rfl⟩ := heq
    have h1 := mem_intRange.mp hq'
    have h2 := mem_intRange.mp hr'
    exact ⟨h1.1, h1.2, h2.1, h2.2⟩
  · rintro ⟨h1, h2, h3, h4⟩
    rw [gridKeys, generate_grid, List.map_flatMap]
    refine List.mem_flatMap.mpr ⟨q, mem_intRange.mpr ⟨h1, h2⟩, ?_⟩
    rw [gridRow, List.map_map]
    exact List.mem_map.mpr ⟨r, mem_intRange.mpr ⟨h3, h4⟩, rfl⟩

theorem loopBounds_iff_region {R q r : ℤ} :
    (-R ≤ q ∧ q ≤ R ∧ max (-R) (-q - R) ≤ r ∧ r ≤ min R (-q + R)) ↔
      max |q| (max |r| |(-q) - r|) ≤ R := by
  simp only [max_le_iff, le_min_iff, abs_le]
  omega

theorem nodup_gridKeys_generate (attrs : ℤ → ℤ → TileAttrs) (R : ℤ) :
    (gridKeys (generate_grid attrs R)).Nodup := by
  rw [gridKeys, generate_grid, List.map_flatMap, List.nodup_flatMap]
  constructor
  · intro q _
    rw [gridRow, List.map_map]
    refine List.Nodup.map ?_ (nodup_intRange _ _)
    intro r1 r2 h
    simpa using h
  · refine List.Pairwise.imp ?_ (nodup_intRange (-R) R)
    intro q1 q2 hne
    simp only [Function.onFun]
    intro x hx1 hx2
    simp only [gridRow, List.map_map] at hx1 hx2
    obtain ⟨r1, _, rfl⟩ := List.mem_map.mp hx1
    obtain ⟨r2, _, heq⟩ := List.mem_map.mp hx2
    simp only [Function.comp_apply, Prod.mk.injEq] at heq
    exact hne heq.1.symm

theorem mem_generate_grid {attrs : ℤ → ℤ → TileAttrs} {R : ℤ}
    {e : (ℤ × ℤ) × HexTile} (he : e ∈ generate_grid attrs R) :
    ∃ q r : ℤ, e = ((q, r), mkTile attrs q r) := by
  rw [generate_grid] at he
  obtain ⟨q, _, hrow⟩ := List.mem_flatMap.mp he
  rw [gridRow] at hrow
  obtain ⟨r, _, rfl⟩ := List.mem_map.mp hrow
  exact ⟨q, r, rfl⟩

/-- C1: for every radius `R ≥ 0` the generated grid has exactly `3R² + 3R + 1`
tiles, its key set is exactly the hexagonal region
`max (|q|, |r|, |-q-r|) ≤ R` with no duplicates, and each stored tile has
`s = -q - r`, so `q + r + s = 0`. -/
theorem generate_grid_spec (attrs : ℤ → ℤ → TileAttrs) (R : ℤ) (hR : 0 ≤ R) :
    (generate_grid attrs R).length = (3 * R ^ 2 + 3 * R + 1).toNat ∧
    (∀ q r : ℤ, (q, r) ∈ gridKeys (generate_grid attrs R) ↔
      max |q| (max |r| |(-q) - r|) ≤ R) ∧
    (gridKeys (generate_grid attrs R)).Nodup ∧
    ∀ e ∈ generate_grid attrs R,
      e.2.q = e.1.1 ∧ e.2.r = e.1.2 ∧ e.2.s = -e.1.1 - e.1.2 ∧
        e.1.1 + e.1.2 + e.2.s = 0 := by
  refine ⟨?_, ?_, nodup_gridKeys_generate attrs R, ?_⟩
  · lift R to ℕ using hR with n
    rw [generate_grid_length_nat]
    have h : (3 * (n : ℤ) ^ 2 + 3 * (n : ℤ) + 1) = ((3 * n ^ 2 + 3 * n + 1 : ℕ) : ℤ) := by
      push_cast
      ring
    rw [h, Int.toNat_natCast]
  · intro q r
    rw [mem_gridKeys_generate, loopBounds_iff_region]
  · intro e he
    obtain ⟨q, r, rfl⟩ := mem_generate_grid he
    exact ⟨rfl, rfl, rfl, by show q + r + (-q - r) = 0; ring⟩

theorem generate_grid_spec_witness :
    ((0 : ℤ) ≤ 1) ∧
    ((generate_grid attrs0 1).length = (3 * 1 ^ 2 + 3 * 1 + 1 : ℤ).toNat ∧
    (∀ q r : ℤ, (q, r) ∈ gridKeys (generate_grid attrs0 1) ↔
      max |q| (max |r| |(-q) - r|) ≤ 1) ∧
    (gridKeys (generate_grid attrs0 1)).Nodup ∧
    ∀ e ∈ generate_grid attrs0 1,
      e.2.q = e.1.1 ∧ e.2.r = e.1.2 ∧ e.2.s = -e.1.1 - e.1.2 ∧
        e.1.1 + e.1.2 + e.2.s = 0) :=
  ⟨by decide, generate_grid_spec attrs0 1 (by decide)⟩

theorem lookup_intRangeAux_map (g : ℤ → HexTile) (q0 q r : ℤ) (a : ℤ) (n : ℕ) :
    List.lookup (q, r) ((intRangeAux a n).map (fun x => ((q0, x), g x))) =
      if q = q0 ∧ a ≤ r ∧ r < a + n then some (g r) else none := by
  induction n generalizing a with
  | zero =>
    simp only [intRangeAux, List.map_nil, List.lookup_nil]
    rw [if_neg]
    push_cast
    omega
  | succ n ih =>
    simp only [intRangeAux, List.map_cons, List.lookup_cons]
    by_cases hqa : q = q0 ∧ r = a
    · obtain ⟨rfl, rfl⟩ := hqa
      have hb : (((q, r) : ℤ × ℤ) == (q, r)) = true := by simp
      rw [hb]
      rw [if_pos ⟨rfl, le_refl r, by push_cast; omega⟩]
    · have hb : (((q, r) : ℤ × ℤ) == (q0, a)) = false := by
        rw [beq_eq_false_iff_ne]
        intro h
        exact hqa ⟨congrArg Prod.fst h, congrArg Prod.snd h⟩
      rw [hb, ih]
      by_cases hq : q = q0
      · subst hq
        have hra : r ≠ a := fun h => hqa ⟨rfl, h⟩
        refine if_congr ?_ rfl rfl
        constructor
        · rintro ⟨_, h1, h2⟩
          refine ⟨rfl, by omega, by push_cast at h2 ⊢; omega⟩
        · rintro ⟨_, h1, h2⟩
          refine ⟨rfl, by omega, by push_cast at h2 ⊢; omega⟩
      · rw [if_neg (fun h => hq h.1), if_neg (fun h => hq h.1)]

theorem lookup_gridRow (attrs : ℤ → ℤ → TileAttrs) (R q0 q r : ℤ) :
    List.lookup (q, r) (gridRow attrs R q0) =
      if q = q0 ∧ max (-R) (-q0 - R) ≤ r ∧ r ≤ min R (-q0 + R) then
        some (mkTile attrs q0 r)
      else none := by
  rw [gridRow, intRange, lookup_intRangeAux_map]
  refine if_congr ?_ rfl rfl
  constructor
  · rintro ⟨h0, h1, h2⟩
    refine ⟨h0, h1, by omega⟩
  · rintro ⟨h0, h1, h2⟩
    refine ⟨h0, h1, by omega⟩

theorem lookup_append_or {α β : Type} [BEq α] (k : α) (l1 l2 : List (α × β)) :
    List.lookup k (l1 ++ l2) = (List.lookup k l1).or (List.lookup k l2) := by
  induction l1 with
  | nil => simp
  | cons a l ih =>
    obtain ⟨ka, va⟩ := a
    rw [List.cons_append, List.lookup_cons, List.lookup_cons]
    cases h : k == ka
    · simpa using ih
    · simp

theorem lookup_flatMap_rows (attrs : ℤ → ℤ → TileAttrs) (R : ℤ) (qs : List ℤ)
    (q r : ℤ) :
    List.lookup (q, r) (qs.flatMap (gridRow attrs R)) =
      if q ∈ qs ∧ max (-R) (-q - R) ≤ r ∧ r ≤ min R (-q + R) then
        some (mkTile attrs q r)
      else none := by
  induction qs with
  | nil => simp
  | cons q0 qs ih =>
    rw [List.flatMap_cons, lookup_append_or, lookup_gridRow, ih]
    by_cases hq : q = q0
    · subst hq
      by_cases hb : max (-R) (-q - R) ≤ r ∧ r ≤ min R (-q + R)
      · have h1 : q = q ∧ max (-R) (-q - R) ≤ r ∧ r ≤ min R (-q + R) := ⟨rfl, hb⟩
        have h2 : q ∈ q :: qs ∧ max (-R) (-q - R) ≤ r ∧ r ≤ min R (-q + R) :=
          ⟨List.mem_cons_self q qs, hb⟩
        rw [if_pos h1, if_pos h2]
        rfl
      · have h1 : ¬(q = q ∧ max (-R) (-q - R) ≤ r ∧ r ≤ min R (-q + R)) :=
          fun h => hb h.2
        have h2 : ¬(q ∈ qs ∧ max (-R) (-q - R) ≤ r ∧ r ≤ min R (-q + R)) :=
          fun h => hb h.2
        have h3 : ¬(q ∈ q :: qs ∧ max (-R) (-q - R) ≤ r ∧ r ≤ min R (-q + R)) :=
          fun h => hb h.2
        rw [if_neg h1, if_neg h2, if_neg h3]
        rfl
    · rw [if_neg (fun h => hq h.1), Option.none_or]
      refine if_congr ?_ rfl rfl
      constructor
      · rintro ⟨h1, h2⟩
        exact ⟨List.mem_cons_of_mem q0 h1, h2⟩
      · rintro ⟨h1, h2⟩
        rcases List.mem_cons.mp h1 with h | h
        · exact absurd h hq
        · exact ⟨h, h2⟩

/-- C4: `get_tile` on a generated grid returns exactly the stored tile when
`(q, r)` lies in the hexagonal region and the absence indicator `none` for
every coordinate outside it; as a total Lean function it cannot raise,
mirroring Python's total `dict.get`. -/
theorem get_tile_spec (attrs : ℤ → ℤ → TileAttrs) (radius q r : ℤ) :
    get_tile (generate_grid attrs radius) q r =
      if max |q| (max |r| |(-q) - r|) ≤ radius then some (mkTile attrs q r)
      else none := by
  rw [get_tile, generate_grid, lookup_flatMap_rows]
  refine if_congr ?_ rfl rfl
  simp only [mem_intRange, max_le_iff, le_min_iff, abs_le]
  omega

/-- C10: a negative radius raises no error: the outer `q` loop
`range(-radius, radius + 1)` is empty, so the grid is empty and every
lookup returns the absence indicator. -/
theorem negative_radius_empty (attrs : ℤ → ℤ → TileAttrs) (radius : ℤ)
    (h : radius < 0) :
    generate_grid attrs radius = [] ∧
    ∀ q r : ℤ, get_tile (generate_grid attrs radius) q r = none := by
  have hrange : intRange (-radius) radius = [] := by
    rw [intRange]
    have h0 : (radius + 1 - -radius).toNat = 0 := by omega
    rw [h0]
    rfl
  have hempty : generate_grid attrs radius = [] := by
    rw [generate_grid, hrange]
    rfl
  refine ⟨hempty, fun q r => ?_⟩
  rw [get_tile, hempty]
  rfl

theorem negative_radius_empty_witness :
    ((-1 : ℤ) < 0) ∧
    (generate_grid attrs0 (-1) = [] ∧
      ∀ q r : ℤ, get_tile (generate_grid attrs0 (-1)) q r = none) :=
  ⟨by decide, negative_radius_empty attrs0 (-1) (by decide)⟩

/-- Model of `HexGrid.hex_to_latlon`: `lon = q * scale`, `lat = r * scale` with
`scale = 10`, returned as `(lon, lat)`. -/
def hex_to_latlon (q r : ℤ) : ℝ × ℝ :=
  ((q : ℝ) * 10, (r : ℝ) * 10)

/-- One iteration of the loop in `HexGrid.simulate_tectonics` on a dict item
`((q, r), tile)`: project the synthetic lon/lat through the external
collaborator `proj` (the `pyproj` WGS84 → azimuthal-equidistant transform)
and overwrite `tile.elevation` with `max(0, 1000 - sqrt(x² + y²) / 10)`. -/
noncomputable def simEntry (proj : ℝ → ℝ → ℝ × ℝ)
    (e : (ℤ × ℤ) × HexTile) : (ℤ × ℤ) × HexTile :=
  let ll := hex_to_latlon e.1.1 e.1.2
  let xy := proj ll.1 ll.2
  (e.1, { e.2 with elevation := max 0 (1000 - Real.sqrt (xy.1 ^ 2 + xy.2 ^ 2) / 10) })

/-- Model of `HexGrid.simulate_tectonics`, with the projection collaborator explicit. -/
noncomputable def simulate_tectonics (proj : ℝ → ℝ → ℝ × ℝ)
    (g : List ((ℤ × ℤ) × HexTile)) : List ((ℤ × ℤ) × HexTile) :=
  g.map (simEntry proj)

theorem simulate_mem_elevation {proj : ℝ → ℝ → ℝ × ℝ}
    {g : List ((ℤ × ℤ) × HexTile)} {q r : ℤ} {t : HexTile}
    (h : ((q, r), t) ∈ simulate_tectonics proj g) :
    t.elevation =
      max 0 (1000 - Real.sqrt ((proj ((q : ℝ) * 10) ((r : ℝ) * 10)).1 ^ 2 +
        (proj ((q : ℝ) * 10) ((r : ℝ) * 10)).2 ^ 2) / 10) := by
  rw [simulate_tectonics] at h
  obtain ⟨e, _, heq⟩ := List.mem_map.mp h
  simp only [simEntry, Prod.mk.injEq] at heq
  obtain ⟨h1, rfl⟩ := heq
  show max 0 (1000 - Real.sqrt ((proj (hex_to_latlon e.1.1 e.1.2).1
      (hex_to_latlon e.1.1 e.1.2).2).1 ^ 2 + (proj (hex_to_latlon e.1.1 e.1.2).1
      (hex_to_latlon e.1.1 e.1.2).2).2 ^ 2) / 10) = _
  rw [h1]
  simp only [hex_to_latlon]

/-- A concrete projection collaborator used for witness instances. -/
def projId : ℝ → ℝ → ℝ × ℝ :=
  fun lon lat => (lon, lat)

/-- C2: after `simulate_tectonics`, every tile's elevation equals
`max(0, 1000 - d/10)` where `d` is the Euclidean norm of the planar point
the projection collaborator returns for `(lon, lat) = (10q, 10r)`; in
particular every post-simulation elevation is nonnegative. -/
theorem simulate_tectonics_elevation (proj : ℝ → ℝ → ℝ × ℝ)
    (g : List ((ℤ × ℤ) × HexTile)) (q r : ℤ) (t : HexTile)
    (h : ((q, r), t) ∈ simulate_tectonics proj g) :
    t.elevation =
      max 0 (1000 - Real.sqrt ((proj (10 * (q : ℝ)) (10 * (r : ℝ))).1 ^ 2 +
        (proj (10 * (q : ℝ)) (10 * (r : ℝ))).2 ^ 2) / 10) ∧
    0 ≤ t.elevation := by
  have hm := simulate_mem_elevation h
  rw [mul_comm ((q : ℝ)) 10, mul_comm ((r : ℝ)) 10] at hm
  exact ⟨hm, hm ▸ le_max_left 0 _⟩

theorem simulate_tectonics_elevation_witness :
    ((((0 : ℤ), (0 : ℤ)), (simEntry projId ((0, 0), mkTile attrs0 0 0)).2) ∈
      simulate_tectonics projId (generate_grid attrs0 0)) ∧
    ((simEntry projId ((0, 0), mkTile attrs0 0 0)).2.elevation =
      max 0 (1000 - Real.sqrt ((projId (10 * ((0 : ℤ) : ℝ)) (10 * ((0 : ℤ) : ℝ))).1 ^ 2 +
        (projId (10 * ((0 : ℤ) : ℝ)) (10 * ((0 : ℤ) : ℝ))).2 ^ 2) / 10) ∧
      0 ≤ (simEntry projId ((0, 0), mkTile attrs0 0 0)).2.elevation) := by
  have hmem : (((0 : ℤ), (0 : ℤ)), (simEntry projId ((0, 0), mkTile attrs0 0 0)).2) ∈
      simulate_tectonics projId (generate_grid attrs0 0) := by
    show _ ∈ [simEntry projId ((0, 0), mkTile attrs0 0 0)]
    exact List.mem_singleton.mpr rfl
  exact ⟨hmem, simulate_tectonics_elevation projId (generate_grid attrs0 0) 0 0 _ hmem⟩

/-- C3: if the azimuthal-equidistant collaborator maps the center `(0, 0)`
to the planar origin, then after simulation the tile at coordinate `(0, 0)`
has elevation exactly `1000`. -/
theorem center_tile_elevation (proj : ℝ → ℝ → ℝ × ℝ)
    (hproj : proj 0 0 = (0, 0)) (g : List ((ℤ × ℤ) × HexTile)) (t : HexTile)
    (h : ((0, 0), t) ∈ simulate_tectonics proj g) :
    t.elevation = 1000 := by
  have hm := simulate_mem_elevation h
  norm_num at hm
  rw [hproj] at hm
  norm_num [Real.sqrt_zero] at hm
  exact hm

theorem center_tile_elevation_witness :
    projId 0 0 = ((0 : ℝ), (0 : ℝ)) ∧
    ((((0 : ℤ), (0 : ℤ)), (simEntry projId ((0, 0), mkTile attrs0 0 0)).2) ∈
      simulate_tectonics projId (generate_grid attrs0 0)) ∧
    (simEntry projId ((0, 0), mkTile attrs0 0 0)).2.elevation = 1000 := by
  have hmem : (((0 : ℤ), (0 : ℤ)), (simEntry projId ((0, 0), mkTile attrs0 0 0)).2) ∈
      simulate_tectonics projId (generate_grid attrs0 0) := by
    show _ ∈ [simEntry projId ((0, 0), mkTile attrs0 0 0)]
    exact List.mem_singleton.mpr rfl
  exact ⟨rfl, hmem,
    center_tile_elevation projId rfl (generate_grid attrs0 0) _ hmem⟩

/-- C8: simulation only mutates elevations: the key list is unchanged and
every tile keeps its `q`, `r`, `s`, temperature, natural-resource and
agriculture values, with no tile added or removed. -/
theorem simulate_tectonics_frame (proj : ℝ → ℝ → ℝ × ℝ)
    (g : List ((ℤ × ℤ) × HexTile)) :
    gridKeys (simulate_tectonics proj g) = gridKeys g ∧
    (simulate_tectonics proj g).map
        (fun e => (e.1, e.2.q, e.2.r, e.2.s, e.2.temperature,
          e.2.natural_resources, e.2.agriculture)) =
      g.map (fun e => (e.1, e.2.q, e.2.r, e.2.s, e.2.temperature,
        e.2.natural_resources, e.2.agriculture)) := by
  constructor
  · rw [gridKeys, simulate_tectonics, List.map_map]
    rfl
  · rw [simulate_tectonics, List.map_map]
    rfl

/-- C9: simulation is idempotent: the new elevation depends only on the
tile's key, never on its current elevation, so a second pass recomputes the
same value. -/
theorem simulate_tectonics_idempotent (proj : ℝ → ℝ → ℝ × ℝ)
    (g : List ((ℤ × ℤ) × HexTile)) :
    simulate_tectonics proj (simulate_tectonics proj g) =
      simulate_tectonics proj g := by
  simp only [simulate_tectonics, List.map_map]
  rfl

/-- Model of `HexGrid.get_color_by_elevation`, with the source's strict thresholds. -/
noncomputable def get_color_by_elevation (elevation : ℝ) : String :=
  if elevation > 800 then "#8B0000"
  else if elevation > 400 then "#FFA500"
  else "#00FF00"

/-- C5: the elevation-to-color mapping uses strict thresholds: above 800 is
dark red, otherwise above 400 is orange, otherwise green; in particular 900
is dark red, 800 and 500 are orange, and 400 and 100 are green. -/
theorem get_color_by_elevation_spec :
    (∀ e : ℝ, e > 800 → get_color_by_elevation e = "#8B0000") ∧
    (∀ e : ℝ, ¬e > 800 → e > 400 → get_color_by_elevation e = "#FFA500") ∧
    (∀ e : ℝ, ¬e > 800 → ¬e > 400 → get_color_by_elevation e = "#00FF00") ∧
    get_color_by_elevation 900 = "#8B0000" ∧
    get_color_by_elevation 800 = "#FFA500" ∧
    get_color_by_elevation 500 = "#FFA500" ∧
    get_color_by_elevation 400 = "#00FF00" ∧
    get_color_by_elevation 100 = "#00FF00" := by
  have hred : ∀ e : ℝ, e > 800 → get_color_by_elevation e = "#8B0000" := by
    intro e h
    rw [get_color_by_elevation, if_pos h]
  have horange : ∀ e : ℝ, ¬e > 800 → e > 400 → get_color_by_elevation e = "#FFA500" := by
    intro e h1 h2
    rw [get_color_by_elevation, if_neg h1, if_pos h2]
  have hgreen : ∀ e : ℝ, ¬e > 800 → ¬e > 400 → get_color_by_elevation e = "#00FF00" := by
    intro e h1 h2
    rw [get_color_by_elevation, if_neg h1, if_neg h2]
  refine ⟨hred, horange, hgreen, ?_, ?_, ?_, ?_, ?_⟩
  · exact hred 900 (by norm_num)
  · exact horange 800 (by norm_num) (by norm_num)
  · exact horange 500 (by norm_num) (by norm_num)
  · exact hgreen 400 (by norm_num) (by norm_num)
  · exact hgreen 100 (by norm_num) (by norm_num)

theorem get_color_by_elevation_spec_witness :
    ((900 : ℝ) > 800 ∧ get_color_by_elevation 900 = "#8B0000") ∧
    (¬(500 : ℝ) > 800 ∧ (500 : ℝ) > 400 ∧ get_color_by_elevation 500 = "#FFA500") ∧
    (¬(100 : ℝ) > 800 ∧ ¬(100 : ℝ) > 400 ∧ get_color_by_elevation 100 = "#00FF00") :=
  ⟨⟨by norm_num, get_color_by_elevation_spec.1 900 (by norm_num)⟩,
    ⟨by norm_num, by norm_num,
      get_color_by_elevation_spec.2.1 500 (by norm_num) (by norm_num)⟩,
    ⟨by norm_num, by norm_num,
      get_color_by_elevation_spec.2.2.1 100 (by norm_num) (by norm_num)⟩⟩

/-- Model of `HexGrid.hex_to_pixel`: `x = size * (3/2 * q)`,
`y = size * (sqrt(3) * (r + q/2))`, with Python's `q / 2` a float division. -/
noncomputable def hex_to_pixel (q r : ℤ) (size : ℝ) : ℝ × ℝ :=
  (size * (3 / 2 * (q : ℝ)), size * (Real.sqrt 3 * ((r : ℝ) + (q : ℝ) / 2)))

/-- C6 counterexample: for `q = 1, r = 0, size = 20` the code returns
`y = 20·√3·(0 + 1/2) = 10√3 ≈ 17.32`, not the `20√3 ≈ 34.64` the claim
states, so the pixel center is not `(30, 20√3)`. -/
theorem hex_to_pixel_counterexample :
    hex_to_pixel 1 0 20 ≠ ((30 : ℝ), 20 * Real.sqrt 3) := by
  intro h
  have h2 := congrArg Prod.snd h
  simp only [hex_to_pixel] at h2
  push_cast at h2
  ring_nf at h2
  have hs : 0 < Real.sqrt 3 := Real.sqrt_pos.mpr (by norm_num)
  nlinarith [hs, h2]

/-- C6 amended: the axial-to-pixel mapping is the flat-top formula
`x = size·1.5·q`, `y = size·√3·(r + q/2)`; for `q = 1, r = 0, size = 20`
this gives `x = 30` and `y = 10√3` (not `20√3`). -/
theorem hex_to_pixel_spec :
    (∀ (q r : ℤ) (size : ℝ),
      hex_to_pixel q r size =
        (size * 1.5 * (q : ℝ), size * Real.sqrt 3 * ((r : ℝ) + (q : ℝ) / 2))) ∧
    hex_to_pixel 1 0 20 = ((30 : ℝ), 10 * Real.sqrt 3) := by
  constructor
  · intro q r size
    simp only [hex_to_pixel, Prod.mk.injEq]
    constructor
    · norm_num
      ring
    · ring
  · simp only [hex_to_pixel, Prod.mk.injEq]
    constructor
    · norm_num
    · push_cast
      ring_nf

/-- One row of `HexGrid.visual_grid`: `print(" " * (radius - r), end="")`
— `(radius - r)` single space characters — then, for each `q` in
`range(max(-radius, -r - radius), min(radius, -r + radius) + 1)`, the
2-character marker `"o "` when `(q, r)` is a key of the grid dict and two
spaces otherwise. -/
def visual_row (g : List ((ℤ × ℤ) × HexTile)) (radius r : ℤ) : String :=
  String.mk (List.replicate (radius - r).toNat ' ') ++
    String.join
      ((intRange (max (-radius) (-r - radius)) (min radius (-r + radius))).map
        (fun q => if (q, r) ∈ gridKeys g then "o " else "  "))

/-- Model of `HexGrid.visual_grid`: rows for `r` from `-radius` to `radius`, each
terminated by the newline `print()` emits. -/
def visual_grid (g : List ((ℤ × ℤ) × HexTile)) (radius : ℤ) : String :=
  String.join
    ((intRange (-radius) radius).map (fun r => visual_row g radius r ++ "\n"))

/-- C7 counterexample: at radius 1 the printed row for `r = -1` is
`"  o o "` — two leading spaces, `radius - r = 2` of them — and not the
`2 * (radius - r) = 4` leading spaces the claim prescribes. -/
theorem visual_row_counterexample :
    visual_row (generate_grid attrs0 1) 1 (-1) = "  o o " ∧
    visual_row (generate_grid attrs0 1) 1 (-1) ≠
      String.mk (List.replicate ((2 * (1 - (-1) : ℤ)).toNat) ' ') ++ "o o " := by
  constructor
  · decide
  · decide

/-- C7 amended: each row `r` of the visual view for a generated grid of
radius `R` consists of `(R - r)` single space characters of indentation
(half of what the claim stated), then the 2-character marker `"o "` for
every valid `q` of that row — every such coordinate is in the grid, so the
blank branch never fires — followed by a newline. -/
theorem visual_grid_spec (attrs : ℤ → ℤ → TileAttrs) (R : ℤ) :
    visual_grid (generate_grid attrs R) R =
      String.join ((intRange (-R) R).map (fun r =>
        String.mk (List.replicate (R - r).toNat ' ') ++
          String.join ((intRange (max (-R) (-r - R)) (min R (-r + R))).map
            (fun _ => "o ")) ++ "\n")) := by
  rw [visual_grid]
  refine congrArg String.join (List.map_congr_left ?_)
  intro r hr
  have hrb := mem_intRange.mp hr
  rw [visual_row]
  refine congrArg (· ++ "\n") ?_
  refine congrArg (String.mk (List.replicate (R - r).toNat ' ') ++ ·) ?_
  refine congrArg String.join (List.map_congr_left ?_)
  intro q hq
  have hqb := mem_intRange.mp hq
  rw [if_pos]
  exact mem_gridKeys_generate.mpr ⟨by omega, by omega, by omega, by omega⟩
